import Mathlib

/-! # split-dir: a verification development

Shallow embedding of `main.go` (commands `add` and `split`, and the pure
`partitionFiles`) together with the properties proved about it.

Go strings are modelled by `String`, slices by `List`, and a
`map[string]bool` by a total function `String → Bool` (a lookup of a
missing key yields `false`, exactly as in Go).
-/

namespace SplitDir

/-! ## The partitioner (`partitionFiles`, main.go:187-209) -/

/-- The loop `for _, m := range markers { markerSet[m] = true }` run on an
initially empty `map[string]bool`. -/
def markerSet (markers : List String) : String → Bool :=
  markers.foldl (fun s m => fun k => if k = m then true else s k) (fun _ => false)

/-- One iteration of the loop over `all` in `partitionFiles`; the state is the
pair `(partitions, current)`. -/
def partitionStep (markerSet : String → Bool)
    (st : List (List String) × List String) (f : String) :
    List (List String) × List String :=
  if markerSet f then
    (if st.2.length > 0 then st.1 ++ [st.2] else st.1, [f])
  else
    (st.1, st.2 ++ [f])

/-- The final `if len(current) > 0 { partitions = append(partitions, current) }`. -/
def partitionFlush (st : List (List String) × List String) : List (List String) :=
  if st.2.length > 0 then st.1 ++ [st.2] else st.1

/-- Embedding of `partitionFiles(all, markers)`. -/
def partitionFiles (all markers : List String) : List (List String) :=
  partitionFlush (all.foldl (partitionStep (markerSet markers)) ([], []))

/-! ## Exit codes and errors (main.go:15-61) -/

def errorExitOpen : Nat := 0 + 10
def errorExitWrite : Nat := 1 + 10
def errorExitReadDir : Nat := 2 + 10
def errorExitReadSplit : Nat := 3 + 10
def errorExitMakeDir : Nat := 4 + 10
def errorExitMoveFile : Nat := 5 + 10
def errorExitBadFile : Nat := 6 + 10
def errorExitAddDir : Nat := 7 + 10
def errorExitCwd : Nat := 8 + 10
def errorExitEmptySplit : Nat := 9 + 10

/-- The ten values of the `errorExit*` constant block. -/
def exitCodes : List Nat :=
  [errorExitOpen, errorExitWrite, errorExitReadDir, errorExitReadSplit, errorExitMakeDir,
   errorExitMoveFile, errorExitBadFile, errorExitAddDir, errorExitCwd, errorExitEmptySplit]

def splitFile : String := ".split"

/-- An error value produced by the operating system layer (package `os`,
`bufio`); only its message is observable to this program. -/
structure OSError where
  msg : String
deriving DecidableEq, Repr

/-- The type `errorWithCode`: `err` is kept as its message, the text that
`fmt.Errorf` builds, `code` is the exit code. -/
structure errorWithCode where
  err : String
  code : Nat
deriving DecidableEq, Repr

def errorWithCode.Error (v : errorWithCode) : String := v.err

def errorWithCode.ExitCode (v : errorWithCode) : Nat := v.code

/-- A non-nil value of Go's `error` interface as `Run` can return it: either a
`*errorWithCode` or an error of the `os` package handed on unchanged. -/
inductive GoError where
  | withCode (e : errorWithCode)
  | plain (e : OSError)
deriving DecidableEq, Repr

/-- The exit code an error carries: `some c` when the dynamic type has the
method `ExitCode`, which only `*errorWithCode` has. -/
def GoError.exitCode : GoError → Option Nat
  | .withCode e => some e.ExitCode
  | .plain _ => none

/-! ## The operating system interface

The program talks to the file system through `os.Getwd`, `os.ReadDir`,
`os.Open` with a `bufio.Scanner`, `os.OpenFile`, `os.Stat`,
`(*File).WriteString`, `os.MkdirAll`, `os.Rename` and `os.Remove`.
Their outcomes are parameters of the model. -/

/-- What `readDirFiles` looks at in an `os.DirEntry`. -/
structure DirEntry where
  Name : String
  IsDir : Bool
deriving DecidableEq, Repr

/-- What `AddCmd.Run` looks at in an `os.FileInfo`. -/
structure FileInfo where
  IsDir : Bool
deriving DecidableEq, Repr

/-- A file opened for reading: its content, and, when reading it goes wrong,
the number of lines the scanner delivers before `scanner.Err()` becomes that
error (a read error, or a line longer than the scanner accepts). -/
structure OpenedFile where
  content : String
  failure : Option (Nat × OSError)
deriving DecidableEq, Repr

/-- A call that changes the directory tree. -/
inductive Call where
  | MkdirAll (path : String)
  | Rename (oldpath newpath : String)
  | Remove (name : String)
deriving DecidableEq, Repr

/-- The outcomes of the system calls. `run history call` is the outcome of a
mutating call issued after the calls of `history` (`none` is success).
`WriteString content data` gives the content of the marker file after the
write and the outcome of the write. -/
structure OS where
  Getwd : Except OSError String
  ReadDir : String → Except OSError (List DirEntry)
  Open : String → Except OSError OpenedFile
  OpenFile : String → Except OSError Unit
  Stat : String → Except OSError FileInfo
  WriteString : String → String → String × Option OSError
  run : List Call → Call → Option OSError

/-! ## Library functions -/

/-- The predicate `unicode.IsSpace`: the Latin-1 spaces
`\t \n \v \f \r`, space, U+0085, U+00A0, and the code points of the Unicode
property White_Space above Latin-1. -/
def isSpace (c : Char) : Bool :=
  let n := c.toNat
  (9 ≤ n && n ≤ 13) || n == 32 || n == 0x85 || n == 0xA0 || n == 0x1680 ||
    (0x2000 ≤ n && n ≤ 0x200A) || n == 0x2028 || n == 0x2029 || n == 0x202F ||
    n == 0x205F || n == 0x3000

/-- The function `strings.TrimSpace`: leading and trailing white space removed. -/
def TrimSpace (s : String) : String :=
  ⟨((s.data.dropWhile isSpace).reverse.dropWhile isSpace).reverse⟩

/-- The helper `dropCR` of `bufio.ScanLines`: one trailing carriage return removed. -/
def dropCR (data : List Char) : List Char :=
  if data.getLast? = some '\r' then data.dropLast else data

/-- The lines `bufio.ScanLines` cuts the rest of the input into; `cur` is the
part of the current line already passed. A line ends at a newline; the text
after the last newline is a line only when it is not empty. -/
def scanLinesAux : List Char → List Char → List String
  | [], cur => if cur.isEmpty then [] else [⟨dropCR cur⟩]
  | c :: rest, cur =>
    if c = '\n' then ⟨dropCR cur⟩ :: scanLinesAux rest [] else scanLinesAux rest (cur ++ [c])

/-- The successive values of `scanner.Text()` on a file read without error. -/
def ScanLines (content : String) : List String :=
  scanLinesAux content.data []

/-- The successive values of `scanner.Text()` for which `scanner.Scan()` is true. -/
def OpenedFile.scanned (f : OpenedFile) : List String :=
  match f.failure with
  | none => ScanLines f.content
  | some (n, _) => (ScanLines f.content).take n

/-- The value of `scanner.Err()` after the loop. -/
def OpenedFile.Err (f : OpenedFile) : Option OSError :=
  match f.failure with
  | none => none
  | some (_, e) => some e

/-- Byte-wise comparison `a <= b` of Go strings; on valid UTF-8 it is the
lexicographic comparison of the code points. -/
def lexLe : List Char → List Char → Bool
  | [], _ => true
  | _ :: _, [] => false
  | a :: as, b :: bs =>
    if a.toNat < b.toNat then true
    else if b.toNat < a.toNat then false
    else lexLe as bs

/-- The function `sort.Strings`: the strings in increasing order. -/
def sortStrings (xs : List String) : List String :=
  xs.insertionSort (fun a b => lexLe a.data b.data = true)

/-- The function `filepath.Join(dir, file)` for a directory name and the name
of a directory entry (no separator in it, not `.` or `..`), where cleaning
the joined path changes nothing. -/
def filepathJoin (dir file : String) : String :=
  dir ++ "/" ++ file

/-- The text `fmt.Sprintf("split_%d", i)`. -/
def outDirName (i : Nat) : String :=
  "split_" ++ toString i

/-! ## `readDirFiles` and `readLines` (main.go:151-185) -/

/-- Embedding of `readDirFiles(dir)`. -/
def readDirFiles (os : OS) (dir : String) : Except OSError (List String) :=
  match os.ReadDir dir with
  | .error err => .error err
  | .ok entries =>
    .ok (entries.foldl
      (fun files e =>
        if e.Name = splitFile then files
        else if !e.IsDir then files ++ [e.Name] else files) [])

/-- Embedding of `readLines(path)`: the pair `(lines, err)` it returns. -/
def readLines (os : OS) (path : String) : List String × Option OSError :=
  match os.Open path with
  | .error err => ([], some err)
  | .ok f =>
    (f.scanned.foldl
      (fun lines text =>
        let line := TrimSpace text
        if line = "" then lines else lines ++ [line]) [],
     f.Err)

/-! ## `AddCmd.Run` (main.go:63-95) -/

structure AddCmd where
  Files : List String

/-- The loop `for _, file := range v.Files`; `content` is the content of the
marker file. Returns the final content and the error returned. -/
def addLoop (os : OS) : List String → String → String × Option GoError
  | [], content => (content, none)
  | file :: rest, content =>
    match os.Stat file with
    | .error err =>
      (content, some (.withCode
        ⟨"file probably doesn\x27t exist: " ++ file ++ " - " ++ err.msg, errorExitBadFile⟩))
    | .ok stat =>
      if stat.IsDir then
        (content, some (.withCode ⟨"can\x27t add dirs: " ++ file, errorExitAddDir⟩))
      else
        match os.WriteString content (file ++ "\n") with
        | (content', some err) =>
          (content', some (.withCode
            ⟨"failed to add " ++ file ++ " - " ++ err.msg, errorExitWrite⟩))
        | (content', none) => addLoop os rest content'

/-- Embedding of `(*AddCmd).Run`; `content` is the content of the marker file
before the call (empty when the file does not exist yet). -/
def AddCmd.Run (os : OS) (v : AddCmd) (content : String) : String × Option GoError :=
  match os.OpenFile splitFile with
  | .error err =>
    (content, some (.withCode
      ⟨"failed to open " ++ splitFile ++ " - " ++ err.msg, errorExitOpen⟩))
  | .ok _ => addLoop os v.Files content

/-! ## `SplitCmd.Run` (main.go:97-149) -/

/-- The inner loop `for _, file := range files`; `hist` is the list of
mutating calls issued so far. -/
def moveFiles (os : OS) (outDir : String) :
    List String → List Call → List Call × Option GoError
  | [], hist => (hist, none)
  | file :: rest, hist =>
    let dst := filepathJoin outDir file
    match os.run hist (.Rename file dst) with
    | some err =>
      (hist ++ [.Rename file dst], some (.withCode
        ⟨"failed move " ++ file ++ " - " ++ err.msg, errorExitMoveFile⟩))
    | none => moveFiles os outDir rest (hist ++ [.Rename file dst])

/-- The outer loop `for i, files := range partitions`, from index `i` on. -/
def splitLoop (os : OS) :
    Nat → List (List String) → List Call → List Call × Option GoError
  | _, [], hist => (hist, none)
  | i, files :: rest, hist =>
    let outDir := outDirName i
    match os.run hist (.MkdirAll outDir) with
    | some err =>
      (hist ++ [.MkdirAll outDir], some (.withCode
        ⟨"failed to create directory " ++ outDir ++ " - " ++ err.msg, errorExitMakeDir⟩))
    | none =>
      match moveFiles os outDir files (hist ++ [.MkdirAll outDir]) with
      | (hist', some e) => (hist', some e)
      | (hist', none) => splitLoop os (i + 1) rest hist'

/-- Embedding of `(*SplitCmd).Run`: the mutating calls it issues, in order,
and the error it returns (`none` is `nil`). -/
def SplitCmd.Run (os : OS) : List Call × Option GoError :=
  match os.Getwd with
  | .error err => ([], some (.withCode ⟨"failed get cwd - " ++ err.msg, errorExitCwd⟩))
  | .ok base =>
    match readDirFiles os base with
    | .error err =>
      ([], some (.withCode ⟨"failed to read dir files - " ++ err.msg, errorExitReadDir⟩))
    | .ok allFiles =>
      let allFiles := sortStrings allFiles
      match readLines os splitFile with
      | (_, some err) =>
        ([], some (.withCode
          ⟨"failed to read split file lines - " ++ err.msg, errorExitReadSplit⟩))
      | (markers, none) =>
        if markers.length = 0 then
          ([], some (.withCode ⟨"empty split file", errorExitEmptySplit⟩))
        else
          let markers := sortStrings markers
          let partitions := partitionFiles allFiles markers
          match splitLoop os 0 partitions [] with
          | (hist, some e) => (hist, some e)
          | (hist, none) =>
            (hist ++ [.Remove splitFile], (os.run hist (.Remove splitFile)).map .plain)

/-! ## The invariant of the partitioning loop -/

/-- The invariant of the loop behind the boundary property: closed partitions
after the first start with a marker, no partition has a marker after its
first element, and once a partition is closed the current one starts with a
marker. -/
def BoundaryInv (s : String → Bool) (st : List (List String) × List String) : Prop :=
  (∀ p ∈ st.1.tail, ∃ m rest, p = m :: rest ∧ s m = true) ∧
  (∀ p ∈ st.1, ∀ f ∈ p.tail, s f = false) ∧
  (∀ f ∈ st.2.tail, s f = false) ∧
  (st.1 ≠ [] → ∃ m rest, st.2 = m :: rest ∧ s m = true)

/-! ## The planned sequence of calls of `split` -/

/-- The source of a move, for a call that moves a file. -/
def Call.moved : Call → Option String
  | .Rename oldpath _ => some oldpath
  | _ => none

/-- The directory created, for a call that creates one. -/
def Call.created : Call → Option String
  | .MkdirAll path => some path
  | _ => none

/-- What is done for the partition `ip.2` of index `ip.1`: create the directory
`split_<i>`, then move each file `f` of the partition, in order, to
`split_<i>/f`. -/
def partitionCalls (ip : Nat × List String) : List Call :=
  Call.MkdirAll ("split_" ++ toString ip.1) ::
    ip.2.map (fun f => Call.Rename f ("split_" ++ toString ip.1 ++ "/" ++ f))

/-- The calls for all partitions, by index from 0, in result order. -/
def plannedCalls (partitions : List (List String)) : List Call :=
  partitions.enum.flatMap partitionCalls

/-- A working directory `/work` holding the files `b`, `a`, `c`, the directory
`sub` and a marker file with the lines `b` and a blank line; every call
succeeds; `missing` does not exist. -/
def demoOS : OS where
  Getwd := .ok "/work"
  ReadDir := fun _ =>
    .ok [⟨"b", false⟩, ⟨".split", false⟩, ⟨"a", false⟩, ⟨"sub", true⟩, ⟨"c", false⟩]
  Open := fun _ => .ok ⟨" b \r\n\n", none⟩
  OpenFile := fun _ => .ok ()
  Stat := fun p =>
    if p = "missing" then .error ⟨"no such file or directory"⟩ else .ok ⟨decide (p = "sub")⟩
  WriteString := fun c d => (c ++ d, none)
  run := fun _ _ => none

/-- The directory of `demoOS` with a marker file of blank lines only. -/
def blankOS : OS :=
  { demoOS with Open := fun _ => .ok ⟨" \r\n\n\t", none⟩ }

/-- The directory of `demoOS` where every call succeeds except the final
removal of the marker file. -/
def removeFailsOS : OS :=
  { demoOS with
    run := fun _ c =>
      if c = .Remove ".split" then some ⟨"operation not permitted"⟩ else none }

/-! ## Lemmas about the partitioner -/

theorem markerSet_foldl (markers : List String) (s : String → Bool) (f : String) :
    (markers.foldl (fun s m => fun k => if k = m then true else s k) s) f = true ↔
      f ∈ markers ∨ s f = true := by
  induction markers generalizing s with
  | nil => simp
  | cons m ms ih =>
    rw [List.foldl_cons, ih]
    by_cases h : f = m
    · simp [h]
    · simp [h]

theorem markerSet_iff (markers : List String) (f : String) :
    markerSet markers f = true ↔ f ∈ markers := by
  unfold markerSet
  rw [markerSet_foldl]
  simp

theorem markerSet_eq_false (markers : List String) (f : String) (h : f ∉ markers) :
    markerSet markers f = false := by
  cases hm : markerSet markers f with
  | false => rfl
  | true => exact absurd ((markerSet_iff markers f).1 hm) h

/-- The loop only consults the marker set at the filenames it visits. -/
theorem foldl_partitionStep_congr (s₁ s₂ : String → Bool) (all : List String)
    (h : ∀ f ∈ all, s₁ f = s₂ f) (st : List (List String) × List String) :
    all.foldl (partitionStep s₁) st = all.foldl (partitionStep s₂) st := by
  induction all generalizing st with
  | nil => rfl
  | cons f fs ih =>
    have hf : s₁ f = s₂ f := h f (List.mem_cons_self f fs)
    have hstep : partitionStep s₁ st f = partitionStep s₂ st f := by
      unfold partitionStep
      rw [hf]
    rw [List.foldl_cons, List.foldl_cons, hstep]
    exact ih (fun g hg => h g (List.mem_cons_of_mem f hg)) _

theorem partitionFiles_congr (all m₁ m₂ : List String)
    (h : ∀ f ∈ all, (f ∈ m₁ ↔ f ∈ m₂)) :
    partitionFiles all m₁ = partitionFiles all m₂ := by
  unfold partitionFiles
  rw [foldl_partitionStep_congr (markerSet m₁) (markerSet m₂) all]
  intro f hf
  by_cases hm : f ∈ m₁
  · rw [(markerSet_iff m₁ f).2 hm, (markerSet_iff m₂ f).2 ((h f hf).1 hm)]
  · rw [markerSet_eq_false m₁ f hm, markerSet_eq_false m₂ f (fun h2 => hm ((h f hf).2 h2))]

theorem flatten_partitionFlush (st : List (List String) × List String) :
    (partitionFlush st).flatten = st.1.flatten ++ st.2 := by
  unfold partitionFlush
  split
  · simp
  · rename_i h
    have : st.2 = [] := by
      cases hc : st.2 with
      | nil => rfl
      | cons a l => rw [hc] at h; simp at h
    simp [this]

theorem flatten_partitionStep (s : String → Bool) (st : List (List String) × List String)
    (f : String) :
    (partitionStep s st f).1.flatten ++ (partitionStep s st f).2 =
      st.1.flatten ++ st.2 ++ [f] := by
  have h := flatten_partitionFlush st
  unfold partitionFlush at h
  unfold partitionStep
  cases s f with
  | true => simp only [if_true]; rw [h]
  | false => simp

theorem flatten_foldl_partitionStep (s : String → Bool) (all : List String)
    (st : List (List String) × List String) :
    (all.foldl (partitionStep s) st).1.flatten ++ (all.foldl (partitionStep s) st).2 =
      st.1.flatten ++ st.2 ++ all := by
  induction all generalizing st with
  | nil => simp
  | cons f fs ih =>
    rw [List.foldl_cons, ih, flatten_partitionStep]
    simp

theorem partitionFlush_of_ne_nil (ps : List (List String)) (cur : List String)
    (h : cur ≠ []) : partitionFlush (ps, cur) = ps ++ [cur] := by
  unfold partitionFlush
  have : cur.length > 0 := List.length_pos.2 h
  simp [this]

theorem partitionFlush_nil (ps : List (List String)) : partitionFlush (ps, []) = ps := by
  simp [partitionFlush]

theorem partitionStep_marker (s : String → Bool) (ps : List (List String))
    (cur : List String) (f : String) (h : s f = true) :
    partitionStep s (ps, cur) f = (partitionFlush (ps, cur), [f]) := by
  simp [partitionStep, partitionFlush, h]

theorem partitionStep_other (s : String → Bool) (ps : List (List String))
    (cur : List String) (f : String) (h : s f = false) :
    partitionStep s (ps, cur) f = (ps, cur ++ [f]) := by
  simp [partitionStep, h]

/-- Every closed partition is non-empty: invariant of the loop. -/
theorem foldl_partitionStep_ne_nil (s : String → Bool) (all : List String)
    (st : List (List String) × List String) (h : ∀ p ∈ st.1, p ≠ []) :
    ∀ p ∈ (all.foldl (partitionStep s) st).1, p ≠ [] := by
  induction all generalizing st with
  | nil => exact h
  | cons f fs ih =>
    rw [List.foldl_cons]
    apply ih
    obtain ⟨ps, cur⟩ := st
    cases hs : s f with
    | false => rw [partitionStep_other s ps cur f hs]; exact h
    | true =>
      rw [partitionStep_marker s ps cur f hs]
      cases cur with
      | nil => rw [partitionFlush_nil]; exact h
      | cons a l =>
        rw [partitionFlush_of_ne_nil ps (a :: l) (List.cons_ne_nil a l)]
        intro p hp
        rcases List.mem_append.1 hp with hp | hp
        · exact h p hp
        · rw [List.mem_singleton.1 hp]; exact List.cons_ne_nil a l

theorem partitionFlush_ne_nil (st : List (List String) × List String)
    (h : ∀ p ∈ st.1, p ≠ []) : ∀ p ∈ partitionFlush st, p ≠ [] := by
  obtain ⟨ps, cur⟩ := st
  cases cur with
  | nil => rw [partitionFlush_nil]; exact h
  | cons a l =>
    rw [partitionFlush_of_ne_nil ps (a :: l) (List.cons_ne_nil a l)]
    intro p hp
    rcases List.mem_append.1 hp with hp | hp
    · exact h p hp
    · rw [List.mem_singleton.1 hp]; exact List.cons_ne_nil a l

theorem boundaryInv_flush (s : String → Bool) (ps : List (List String)) (cur : List String)
    (h : BoundaryInv s (ps, cur)) :
    (∀ p ∈ (partitionFlush (ps, cur)).tail, ∃ m rest, p = m :: rest ∧ s m = true) ∧
    (∀ p ∈ partitionFlush (ps, cur), ∀ f ∈ p.tail, s f = false) := by
  obtain ⟨h1, h2, h3, h4⟩ := h
  cases cur with
  | nil => rw [partitionFlush_nil]; exact ⟨h1, h2⟩
  | cons a l =>
    rw [partitionFlush_of_ne_nil ps (a :: l) (List.cons_ne_nil a l)]
    constructor
    · intro p hp
      cases ps with
      | nil => simp at hp
      | cons q qs =>
        simp only [List.cons_append, List.tail_cons] at hp
        rcases List.mem_append.1 hp with hp | hp
        · exact h1 p hp
        · rw [List.mem_singleton.1 hp]; exact h4 (List.cons_ne_nil q qs)
    · intro p hp
      rcases List.mem_append.1 hp with hp | hp
      · exact h2 p hp
      · rw [List.mem_singleton.1 hp]; exact h3

theorem boundaryInv_step (s : String → Bool) (st : List (List String) × List String)
    (f : String) (h : BoundaryInv s st) : BoundaryInv s (partitionStep s st f) := by
  obtain ⟨ps, cur⟩ := st
  cases hs : s f with
  | false =>
    rw [partitionStep_other s ps cur f hs]
    obtain ⟨h1, h2, h3, h4⟩ := h
    refine ⟨h1, h2, ?_, ?_⟩
    · intro g hg
      cases cur with
      | nil => simp at hg
      | cons a l =>
        simp only [List.cons_append, List.tail_cons] at hg
        rcases List.mem_append.1 hg with hg | hg
        · exact h3 g hg
        · rw [List.mem_singleton.1 hg]; exact hs
    · intro hne
      obtain ⟨m, rest, hcur, hm⟩ := h4 hne
      have hcur' : cur = m :: rest := hcur
      exact ⟨m, rest ++ [f], by simp [hcur'], hm⟩
  | true =>
    rw [partitionStep_marker s ps cur f hs]
    have hfl := boundaryInv_flush s ps cur h
    exact ⟨hfl.1, hfl.2, by simp, fun _ => ⟨f, [], rfl, hs⟩⟩

theorem boundaryInv_foldl (s : String → Bool) (all : List String)
    (st : List (List String) × List String) (h : BoundaryInv s st) :
    BoundaryInv s (all.foldl (partitionStep s) st) := by
  induction all generalizing st with
  | nil => exact h
  | cons f fs ih =>
    rw [List.foldl_cons]
    exact ih _ (boundaryInv_step s st f h)

theorem foldl_partitionStep_no_marker (s : String → Bool) (all : List String)
    (h : ∀ f ∈ all, s f = false) (ps : List (List String)) (cur : List String) :
    all.foldl (partitionStep s) (ps, cur) = (ps, cur ++ all) := by
  induction all generalizing cur with
  | nil => simp
  | cons f fs ih =>
    rw [List.foldl_cons, partitionStep_other s ps cur f (h f (List.mem_cons_self f fs)),
      ih (fun g hg => h g (List.mem_cons_of_mem f hg))]
    simp

theorem flatten_partitionFiles (allFiles markers : List String) :
    (partitionFiles allFiles markers).flatten = allFiles := by
  unfold partitionFiles
  rw [flatten_partitionFlush, flatten_foldl_partitionStep]
  simp

/-! ## The partitioner: main results -/

/-- C1: the concatenation of the partitions returned by `partitionFiles`, in
result order, is `allFiles` itself, for every `allFiles` and `markers`. -/
theorem partitionFiles_flatten (allFiles markers : List String) :
    (partitionFiles allFiles markers).flatten = allFiles :=
  flatten_partitionFiles allFiles markers

/-- C2: every partition other than the first begins with a marker, and in no
partition does a marker occur after the first element; the two scenarios of
the test table evaluate as stated. -/
theorem partitionFiles_boundaries :
    (∀ allFiles markers : List String,
      (∀ p ∈ (partitionFiles allFiles markers).tail,
        ∃ m rest, p = m :: rest ∧ m ∈ markers) ∧
      (∀ p ∈ partitionFiles allFiles markers, ∀ f ∈ p.tail, f ∉ markers)) ∧
    partitionFiles ["one", "two", "three"] ["two"] = [["one"], ["two", "three"]] ∧
    partitionFiles ["one", "two"] ["two"] = [["one"], ["two"]] := by
  refine ⟨?_, by decide, by decide⟩
  intro allFiles markers
  have hinv : BoundaryInv (markerSet markers)
      (allFiles.foldl (partitionStep (markerSet markers)) ([], [])) :=
    boundaryInv_foldl _ allFiles ([], []) ⟨by simp, by simp, by simp, by simp⟩
  have hfl := boundaryInv_flush (markerSet markers) _ _ hinv
  unfold partitionFiles
  constructor
  · intro p hp
    obtain ⟨m, rest, hpe, hm⟩ := hfl.1 p hp
    exact ⟨m, rest, hpe, (markerSet_iff markers m).1 hm⟩
  · intro p hp f hf hmem
    have := hfl.2 p hp f hf
    rw [(markerSet_iff markers f).2 hmem] at this
    exact Bool.noConfusion this

/-- C3: every partition returned by `partitionFiles` is non-empty; a marker
that is the first file opens no empty leading partition. -/
theorem partitionFiles_nonempty :
    (∀ allFiles markers : List String, ∀ p ∈ partitionFiles allFiles markers, p ≠ []) ∧
    partitionFiles ["one", "two"] ["one"] = [["one", "two"]] := by
  refine ⟨?_, by decide⟩
  intro allFiles markers
  unfold partitionFiles
  apply partitionFlush_ne_nil
  apply foldl_partitionStep_ne_nil
  simp

/-- C4, as stated, fails: with no file at all (and no marker) the result has
no partition, rather than the one partition `allFiles`. -/
theorem partitionFiles_no_marker_counterexample :
    (∀ m ∈ ([] : List String), m ∉ ([] : List String)) ∧
    (partitionFiles [] []).length ≠ 1 ∧ partitionFiles [] [] ≠ [[]] := by
  refine ⟨by simp, by decide, by decide⟩

/-- C4, amended: when no marker occurs in `allFiles`, a non-empty `allFiles`
gives exactly the one partition `allFiles`, and an empty `allFiles` gives no
partition. -/
theorem partitionFiles_no_marker (allFiles markers : List String)
    (h : ∀ m ∈ markers, m ∉ allFiles) :
    (allFiles ≠ [] → partitionFiles allFiles markers = [allFiles]) ∧
    (allFiles = [] → partitionFiles allFiles markers = []) := by
  have hs : ∀ f ∈ allFiles, markerSet markers f = false := fun f hf =>
    markerSet_eq_false markers f (fun hm => h f hm hf)
  unfold partitionFiles
  rw [foldl_partitionStep_no_marker _ allFiles hs]
  constructor
  · intro hne
    rw [partitionFlush_of_ne_nil [] ([] ++ allFiles) (by simpa using hne)]
    simp
  · intro he
    rw [he]
    simp [partitionFlush]

theorem partitionFiles_no_marker_witness :
    (∀ m ∈ ["zzz"], m ∉ ["one", "two"]) ∧ ["one", "two"] ≠ [] ∧
    partitionFiles ["one", "two"] ["zzz"] = [["one", "two"]] :=
  ⟨by decide, by decide,
   (partitionFiles_no_marker ["one", "two"] ["zzz"] (by decide)).1 (by decide)⟩

/-- C5: a marker name that does not occur in `allFiles`, inserted anywhere in
the marker list, leaves the result of `partitionFiles` unchanged. -/
theorem partitionFiles_absent_marker (allFiles before after : List String) (m : String)
    (h : m ∉ allFiles) :
    partitionFiles allFiles (before ++ m :: after) =
      partitionFiles allFiles (before ++ after) := by
  apply partitionFiles_congr
  intro f hf
  have hne : f ≠ m := fun he => h (he ▸ hf)
  simp [hne]

theorem partitionFiles_absent_marker_witness :
    "zero" ∉ ["one", "two", "three"] ∧
    partitionFiles ["one", "two", "three"] (["one"] ++ "zero" :: ["two"]) =
      partitionFiles ["one", "two", "three"] (["one"] ++ ["two"]) :=
  ⟨by decide, partitionFiles_absent_marker ["one", "two", "three"] ["one"] ["two"] "zero"
    (by decide)⟩

/-- C10: `partitionFiles` depends on `markers` only through its set of
elements: two marker lists with the same members give the same result. -/
theorem partitionFiles_markers_as_set (allFiles markers1 markers2 : List String)
    (h : ∀ m, m ∈ markers1 ↔ m ∈ markers2) :
    partitionFiles allFiles markers1 = partitionFiles allFiles markers2 :=
  partitionFiles_congr allFiles markers1 markers2 (fun f _ => h f)

theorem partitionFiles_markers_as_set_witness :
    (∀ m, m ∈ ["two", "one", "two"] ↔ m ∈ ["one", "two"]) ∧
    partitionFiles ["one", "two", "three"] ["two", "one", "two"] =
      partitionFiles ["one", "two", "three"] ["one", "two"] :=
  ⟨by intro m; simp only [List.mem_cons, List.mem_singleton, List.not_mem_nil]; tauto,
   partitionFiles_markers_as_set ["one", "two", "three"] ["two", "one", "two"] ["one", "two"]
    (by intro m; simp only [List.mem_cons, List.mem_singleton, List.not_mem_nil]; tauto)⟩

/-! ## `add` -/

theorem join_cons (a : String) (l : List String) :
    String.join (a :: l) = a ++ String.join l := by
  apply String.ext
  simp [String.data_join, String.data_append]

/-- While the arguments are regular files and the writes succeed, the loop of
`add` appends each argument and a newline and goes on. -/
theorem addLoop_valid (os : OS)
    (hwrite : ∀ c d, os.WriteString c d = (c ++ d, none))
    (valid rest : List String) (hvalid : ∀ f ∈ valid, os.Stat f = .ok ⟨false⟩)
    (content : String) :
    addLoop os (valid ++ rest) content =
      addLoop os rest (content ++ String.join (valid.map (fun f => f ++ "\n"))) := by
  induction valid generalizing content with
  | nil => simp [String.join]
  | cons f fs ih =>
    have hf : os.Stat f = .ok ⟨false⟩ := hvalid f (List.mem_cons_self f fs)
    rw [List.cons_append, addLoop]
    simp only [hf, hwrite]
    rw [if_neg (by simp), ih (fun g hg => hvalid g (List.mem_cons_of_mem f hg))]
    rw [List.map_cons, join_cons, String.append_assoc]

/-- C8: `add` stops at the first bad argument and keeps what it has written.
With the marker file opened and every write succeeding, if the arguments
`valid` are regular files and the next argument `bad` fails `os.Stat`
(respectively is a directory), the marker file ends as its previous content
followed by each argument of `valid` and a newline, nothing of `bad` or of the
arguments after it is appended, and the error has code 16 (respectively 17).
With all arguments valid, all are appended and `nil` is returned. -/
theorem add_stops_at_first_bad (os : OS) (content : String)
    (valid after : List String) (bad : String)
    (hopen : os.OpenFile splitFile = .ok ())
    (hwrite : ∀ c d, os.WriteString c d = (c ++ d, none))
    (hvalid : ∀ f ∈ valid, os.Stat f = .ok ⟨false⟩) :
    (∀ e, os.Stat bad = .error e →
      AddCmd.Run os ⟨valid ++ bad :: after⟩ content =
        (content ++ String.join (valid.map (fun f => f ++ "\n")),
         some (.withCode
          ⟨"file probably doesn\x27t exist: " ++ bad ++ " - " ++ e.msg, 16⟩))) ∧
    (os.Stat bad = .ok ⟨true⟩ →
      AddCmd.Run os ⟨valid ++ bad :: after⟩ content =
        (content ++ String.join (valid.map (fun f => f ++ "\n")),
         some (.withCode ⟨"can\x27t add dirs: " ++ bad, 17⟩))) ∧
    AddCmd.Run os ⟨valid⟩ content =
      (content ++ String.join (valid.map (fun f => f ++ "\n")), none) ∧
    errorExitBadFile = 16 ∧ errorExitAddDir = 17 := by
  refine ⟨?_, ?_, ?_, rfl, rfl⟩
  · intro e he
    unfold AddCmd.Run
    simp only [hopen]
    rw [addLoop_valid os hwrite valid (bad :: after) hvalid content, addLoop]
    simp only [he]
    rfl
  · intro hd
    unfold AddCmd.Run
    simp only [hopen]
    rw [addLoop_valid os hwrite valid (bad :: after) hvalid content, addLoop]
    simp only [hd, if_true]
    rfl
  · unfold AddCmd.Run
    simp only [hopen]
    have h := addLoop_valid os hwrite valid [] hvalid content
    rw [List.append_nil] at h
    rw [h, addLoop]

/-! ## `split` with an unusable marker list -/

theorem TrimSpace_of_all_space (s : String) (h : ∀ c ∈ s.data, isSpace c = true) :
    TrimSpace s = "" := by
  unfold TrimSpace
  rw [List.dropWhile_eq_nil_iff.2 h]
  rfl

theorem foldl_blank_lines (texts : List String) (h : ∀ t ∈ texts, TrimSpace t = "")
    (acc : List String) :
    texts.foldl
      (fun lines text =>
        let line := TrimSpace text
        if line = "" then lines else lines ++ [line]) acc = acc := by
  induction texts generalizing acc with
  | nil => rfl
  | cons t ts ih =>
    rw [List.foldl_cons]
    simp only [h t (List.mem_cons_self t ts), if_true]
    exact ih (fun u hu => h u (List.mem_cons_of_mem t hu)) acc

/-- C9: when the marker file is read without error and each of its lines is
empty or white space only, `readLines` returns no line and `split`, having
resolved and listed the working directory, returns the error with code 19
without issuing any call that creates a directory, moves a file or removes the
marker file. -/
theorem split_empty_markers (os : OS) (base : String) (entries : List DirEntry)
    (f : OpenedFile)
    (hwd : os.Getwd = .ok base) (hdir : os.ReadDir base = .ok entries)
    (hopen : os.Open splitFile = .ok f) (hread : f.failure = none)
    (hblank : ∀ line ∈ ScanLines f.content, ∀ c ∈ line.data, isSpace c = true) :
    readLines os splitFile = ([], none) ∧
    SplitCmd.Run os = ([], some (.withCode ⟨"empty split file", 19⟩)) ∧
    errorExitEmptySplit = 19 := by
  have hlines : readLines os splitFile = ([], none) := by
    unfold readLines
    simp only [hopen]
    unfold OpenedFile.scanned OpenedFile.Err
    simp only [hread]
    rw [foldl_blank_lines _ (fun t ht => TrimSpace_of_all_space t (hblank t ht))]
  refine ⟨hlines, ?_, rfl⟩
  unfold SplitCmd.Run
  simp only [hwd]
  unfold readDirFiles
  simp only [hdir, hlines]
  rfl

/-! ## `split` when every call succeeds -/

theorem moveFiles_ok (os : OS) (hrun : ∀ hist c, os.run hist c = none)
    (outDir : String) (files : List String) (hist : List Call) :
    moveFiles os outDir files hist =
      (hist ++ files.map (fun f => Call.Rename f (filepathJoin outDir f)), none) := by
  induction files generalizing hist with
  | nil => simp [moveFiles]
  | cons f fs ih =>
    rw [moveFiles]
    simp only [hrun]
    rw [ih]
    simp

theorem splitLoop_ok (os : OS) (hrun : ∀ hist c, os.run hist c = none)
    (i : Nat) (partitions : List (List String)) (hist : List Call) :
    splitLoop os i partitions hist =
      (hist ++ (partitions.enumFrom i).flatMap partitionCalls, none) := by
  induction partitions generalizing i hist with
  | nil => simp [splitLoop]
  | cons p ps ih =>
    rw [splitLoop]
    simp only [hrun, moveFiles_ok os hrun]
    rw [ih, List.enumFrom_cons, List.flatMap_cons]
    simp [partitionCalls, outDirName, filepathJoin]

theorem moved_partitionCalls (i : Nat) (partitions : List (List String)) :
    ((partitions.enumFrom i).flatMap partitionCalls).filterMap Call.moved =
      partitions.flatten := by
  induction partitions generalizing i with
  | nil => rfl
  | cons p ps ih =>
    rw [List.enumFrom_cons, List.flatMap_cons, List.filterMap_append, ih, List.flatten_cons]
    congr 1
    simp only [partitionCalls, List.filterMap_cons, Call.moved]
    induction p with
    | nil => rfl
    | cons f fs ihf =>
      simp only [List.map_cons, List.filterMap_cons, Call.moved]
      rw [ihf]

theorem created_partitionCalls (i : Nat) (partitions : List (List String)) :
    ((partitions.enumFrom i).flatMap partitionCalls).filterMap Call.created =
      (List.range' i partitions.length).map (fun (j : Nat) => "split_" ++ toString j) := by
  induction partitions generalizing i with
  | nil => rfl
  | cons p ps ih =>
    rw [List.enumFrom_cons, List.flatMap_cons, List.filterMap_append, ih, List.length_cons,
      List.range'_succ, List.map_cons]
    have hp : (partitionCalls (i, p)).filterMap Call.created = ["split_" ++ toString i] := by
      simp only [partitionCalls, List.filterMap_cons, Call.created]
      induction p with
      | nil => rfl
      | cons f fs ihf =>
        simp only [List.map_cons, List.filterMap_cons, Call.created]
        exact ihf
    rw [hp]
    rfl

/-- C6: when the working directory is resolved and listed, the marker list is
read and has an entry, and every mutating call succeeds, `split` issues
exactly the planned calls for `P = partitionFiles(sorted files, sorted
markers)` followed by the removal of `.split`, and returns `nil`. So the files
moved are the file universe, each once; each file of partition `i` goes to
`split_<i>/` under its own name; the directories created are `split_0` to
`split_<len(P)-1>`. -/
theorem split_success (os : OS) (base : String) (files markers : List String)
    (hwd : os.Getwd = .ok base) (hdir : readDirFiles os base = .ok files)
    (hlines : readLines os splitFile = (markers, none)) (hne : markers ≠ [])
    (hrun : ∀ hist c, os.run hist c = none) :
    SplitCmd.Run os =
      (plannedCalls (partitionFiles (sortStrings files) (sortStrings markers)) ++
        [Call.Remove ".split"], none) ∧
    ((SplitCmd.Run os).1.filterMap Call.moved).Perm files ∧
    (SplitCmd.Run os).1.filterMap Call.created =
      (List.range (partitionFiles (sortStrings files) (sortStrings markers)).length).map
        (fun (i : Nat) => "split_" ++ toString i) ∧
    (∀ (i : Nat) p f,
      (partitionFiles (sortStrings files) (sortStrings markers))[i]? = some p →
      f ∈ p → Call.Rename f ("split_" ++ toString i ++ "/" ++ f) ∈ (SplitCmd.Run os).1) := by
  have hlen : ¬ markers.length = 0 := fun h => hne (List.length_eq_zero.1 h)
  have hRun : SplitCmd.Run os =
      (plannedCalls (partitionFiles (sortStrings files) (sortStrings markers)) ++
        [Call.Remove ".split"], none) := by
    unfold SplitCmd.Run
    simp only [hwd, hdir, hlines, hlen, if_false, splitLoop_ok os hrun, hrun]
    rfl
  refine ⟨hRun, ?_, ?_, ?_⟩
  · rw [hRun]
    simp only [List.filterMap_append, plannedCalls, List.enum, moved_partitionCalls,
      flatten_partitionFiles]
    simpa [Call.moved, sortStrings] using List.perm_insertionSort _ files
  · rw [hRun]
    simp only [List.filterMap_append, plannedCalls, List.enum, created_partitionCalls,
      List.range_eq_range']
    simp [Call.created]
  · intro i p f hp hf
    rw [hRun]
    apply List.mem_append_left
    unfold plannedCalls
    rw [List.mem_flatMap]
    refine ⟨(i, p), List.mk_mem_enum_iff_getElem?.2 hp, ?_⟩
    unfold partitionCalls
    exact List.mem_cons_of_mem _ (List.mem_map.2 ⟨f, hf, rfl⟩)

/-! ## The errors of `split` -/

theorem moveFiles_error (os : OS) (outDir : String) (files : List String)
    (hist hist' : List Call) (e : GoError)
    (h : moveFiles os outDir files hist = (hist', some e)) :
    e.exitCode = some errorExitMoveFile := by
  induction files generalizing hist with
  | nil => simp [moveFiles] at h
  | cons f fs ih =>
    rw [moveFiles] at h
    cases hr : os.run hist (Call.Rename f (filepathJoin outDir f)) with
    | some err =>
      simp only [hr, Prod.mk.injEq, Option.some.injEq] at h
      rw [← h.2]
      rfl
    | none =>
      simp only [hr] at h
      exact ih _ h

theorem splitLoop_error (os : OS) (i : Nat) (partitions : List (List String))
    (hist hist' : List Call) (e : GoError)
    (h : splitLoop os i partitions hist = (hist', some e)) :
    e.exitCode = some errorExitMakeDir ∨ e.exitCode = some errorExitMoveFile := by
  induction partitions generalizing i hist with
  | nil => simp [splitLoop] at h
  | cons p ps ih =>
    rw [splitLoop] at h
    cases hr : os.run hist (Call.MkdirAll (outDirName i)) with
    | some err =>
      simp only [hr, Prod.mk.injEq, Option.some.injEq] at h
      rw [← h.2]
      exact Or.inl rfl
    | none =>
      simp only [hr] at h
      cases hm : moveFiles os (outDirName i) p (hist ++ [Call.MkdirAll (outDirName i)]) with
      | mk h1 r =>
        cases r with
        | some e1 =>
          simp only [hm, Prod.mk.injEq, Option.some.injEq] at h
          rw [← h.2]
          exact Or.inr (moveFiles_error os _ p _ h1 e1 hm)
        | none =>
          simp only [hm] at h
          exact ih _ _ h

/-- Every error `split` returns carries one of the ten exit codes, except the
error of the final `os.Remove`, which is returned as the `os` package made it. -/
theorem split_error_classification (os : OS) (e : GoError)
    (h : (SplitCmd.Run os).2 = some e) :
    (∃ c ∈ exitCodes, e.exitCode = some c) ∨
    (∃ hist err, os.run hist (Call.Remove splitFile) = some err ∧ e = GoError.plain err) := by
  unfold SplitCmd.Run at h
  cases hwd : os.Getwd with
  | error err =>
    simp only [hwd, Option.some.injEq] at h
    rw [← h]
    exact Or.inl ⟨errorExitCwd, by decide, rfl⟩
  | ok base =>
    simp only [hwd] at h
    cases hdir : readDirFiles os base with
    | error err =>
      simp only [hdir, Option.some.injEq] at h
      rw [← h]
      exact Or.inl ⟨errorExitReadDir, by decide, rfl⟩
    | ok allFiles =>
      simp only [hdir] at h
      cases hlines : readLines os splitFile with
      | mk markers r =>
        cases r with
        | some err =>
          simp only [hlines, Option.some.injEq] at h
          rw [← h]
          exact Or.inl ⟨errorExitReadSplit, by decide, rfl⟩
        | none =>
          simp only [hlines] at h
          by_cases hlen : markers.length = 0
          · simp only [hlen, if_true, Option.some.injEq] at h
            rw [← h]
            exact Or.inl ⟨errorExitEmptySplit, by decide, rfl⟩
          · simp only [hlen, if_false] at h
            cases hloop : splitLoop os 0
                (partitionFiles (sortStrings allFiles) (sortStrings markers)) [] with
            | mk hist r =>
              cases r with
              | some e1 =>
                simp only [hloop, Option.some.injEq] at h
                rw [← h]
                rcases splitLoop_error os 0 _ [] hist e1 hloop with hc | hc
                · exact Or.inl ⟨errorExitMakeDir, by decide, hc⟩
                · exact Or.inl ⟨errorExitMoveFile, by decide, hc⟩
              | none =>
                simp only [hloop] at h
                cases hrm : os.run hist (Call.Remove splitFile) with
                | none => simp [hrm] at h
                | some err =>
                  simp only [hrm, Option.map_some', Option.some.injEq] at h
                  exact Or.inr ⟨hist, err, hrm, h.symm⟩

theorem split_error_classification_witness :
    (SplitCmd.Run blankOS).2 = some (.withCode ⟨"empty split file", 19⟩) ∧
    ((∃ c ∈ exitCodes,
        (GoError.withCode ⟨"empty split file", 19⟩).exitCode = some c) ∨
     (∃ hist err, blankOS.run hist (Call.Remove splitFile) = some err ∧
        GoError.withCode ⟨"empty split file", 19⟩ = GoError.plain err)) :=
  ⟨by decide, split_error_classification blankOS _ (by decide)⟩

/-- C7 fails on the code: with every move done and only the final removal of
the marker file failing, `split` returns the error of `os.Remove` itself, which
carries none of the ten exit codes. -/
theorem split_remove_failure_unclassified :
    SplitCmd.Run removeFailsOS =
      ([Call.MkdirAll "split_0", Call.Rename "a" "split_0/a",
        Call.MkdirAll "split_1", Call.Rename "b" "split_1/b", Call.Rename "c" "split_1/c",
        Call.Remove ".split"],
       some (GoError.plain ⟨"operation not permitted"⟩)) ∧
    (GoError.plain ⟨"operation not permitted"⟩).exitCode = none ∧
    exitCodes = [10, 11, 12, 13, 14, 15, 16, 17, 18, 19] ∧
    ¬ (∀ e, (SplitCmd.Run removeFailsOS).2 = some e → ∃ c ∈ exitCodes, e.exitCode = some c) := by
  refine ⟨by decide, rfl, rfl, ?_⟩
  intro hall
  obtain ⟨c, -, hc⟩ := hall (GoError.plain ⟨"operation not permitted"⟩) (by decide)
  exact Option.noConfusion hc

/-! ## Instances -/

theorem split_success_witness :
    (demoOS.Getwd = .ok "/work" ∧ readDirFiles demoOS "/work" = .ok ["b", "a", "c"] ∧
      readLines demoOS splitFile = (["b"], none) ∧ ["b"] ≠ [] ∧
      ∀ hist c, demoOS.run hist c = none) ∧
    SplitCmd.Run demoOS =
      (plannedCalls (partitionFiles (sortStrings ["b", "a", "c"]) (sortStrings ["b"])) ++
        [Call.Remove ".split"], none) :=
  ⟨⟨rfl, rfl, by decide, by decide, fun _ _ => rfl⟩,
   (split_success demoOS "/work" ["b", "a", "c"] ["b"] rfl rfl (by decide)
      (by decide) (fun _ _ => rfl)).1⟩

theorem add_stops_at_first_bad_witness :
    (demoOS.OpenFile splitFile = .ok () ∧
      (∀ c d, demoOS.WriteString c d = (c ++ d, none)) ∧
      ∀ f ∈ ["a", "b"], demoOS.Stat f = .ok ⟨false⟩) ∧
    demoOS.Stat "missing" = .error ⟨"no such file or directory"⟩ ∧
    AddCmd.Run demoOS ⟨["a", "b"] ++ "missing" :: ["c"]⟩ "old\n" =
      ("old\n" ++ String.join (["a", "b"].map (fun f => f ++ "\n")),
       some (.withCode
        ⟨"file probably doesn\x27t exist: " ++ "missing" ++ " - " ++
          (OSError.mk "no such file or directory").msg, 16⟩)) :=
  ⟨⟨rfl, fun _ _ => rfl,
    by intro f hf; simp at hf; rcases hf with rfl | rfl <;> rfl⟩,
   rfl,
   (add_stops_at_first_bad demoOS "old\n" ["a", "b"] ["c"] "missing" rfl (fun _ _ => rfl)
      (by intro f hf; simp at hf; rcases hf with rfl | rfl <;> rfl)).1
      ⟨"no such file or directory"⟩ rfl⟩

theorem split_empty_markers_witness :
    (blankOS.Getwd = .ok "/work" ∧
      blankOS.ReadDir "/work" =
        .ok [⟨"b", false⟩, ⟨".split", false⟩, ⟨"a", false⟩, ⟨"sub", true⟩, ⟨"c", false⟩] ∧
      blankOS.Open splitFile = .ok ⟨" \r\n\n\t", none⟩ ∧
      (OpenedFile.mk " \r\n\n\t" none).failure = none ∧
      ∀ line ∈ ScanLines (OpenedFile.mk " \r\n\n\t" none).content,
        ∀ c ∈ line.data, isSpace c = true) ∧
    SplitCmd.Run blankOS = ([], some (.withCode ⟨"empty split file", 19⟩)) :=
  ⟨⟨rfl, rfl, rfl, rfl, by decide⟩,
   (split_empty_markers blankOS "/work" _ ⟨" \r\n\n\t", none⟩ rfl rfl rfl rfl
      (by decide)).2.1⟩

end SplitDir
